import Mathlib

/-!
# Verification of `app.js`

A shallow embedding of `src/main/resources/META-INF/resources/js/app.js`:

* the Alpine store `app` (`setUser`, `addNotification`, `removeNotification`)
  as a record with an explicit queue of pending `setTimeout` callbacks;
* `showToast` over the children of `document.body`, each child carrying the
  identity of its node object, again with an explicit timer queue;
* `validateForm` and `setLoading` over a DOM tree whose nodes are addressed by
  their path from the root (the list of child indices).

What the browser's HTML parser makes of a string assigned to `innerHTML` is
not defined by this file; where a function depends on it, the parse is a
parameter of the function.  A call that throws yields `Except.error`.
-/

namespace AppJs

/-! ## The Alpine store -/

/-- One entry of `notifications`: the object literal `{ id, message, type }`. -/
structure Notification where
  id : Int
  message : String
  type : String
deriving DecidableEq

/-- The object registered by `Alpine.store('app', ...)`, together with the
callbacks that `setTimeout` has queued and not run yet.  A pending callback is
recorded as its delay in milliseconds and the `id` its closure captured. -/
structure Store (User : Type) where
  user : Option User
  notifications : List Notification
  timers : List (Nat × Int)

/-- The store as registered on `alpine:init`: `user: null, notifications: []`. -/
def Store.init (User : Type) : Store User :=
  { user := none, notifications := [], timers := [] }

/-- The parameter default `type = 'info'`: an omitted argument is `none`. -/
def typeOrInfo (type : Option String) : String :=
  match type with
  | some t => t
  | none => "info"

/-- The method `setUser(user) { this.user = user; }`. -/
def setUser {User : Type} (s : Store User) (user : Option User) : Store User :=
  { s with user := user }

/-- The method `removeNotification(id)`:
`this.notifications = this.notifications.filter(n => n.id !== id)`. -/
def removeNotification {User : Type} (s : Store User) (id : Int) : Store User :=
  { s with notifications := s.notifications.filter (fun n => decide (n.id ≠ id)) }

/-- The method `addNotification(message, type = 'info')`; `now` is the value
that `Date.now()` returns during the call.  It pushes the new entry and queues
the callback `() => this.removeNotification(id)` with delay 5000. -/
def addNotification {User : Type} (s : Store User) (message : String)
    (type : Option String) (now : Int) : Store User :=
  let id := now
  { s with
    notifications := s.notifications ++ [{ id := id, message := message, type := typeOrInfo type }]
    timers := s.timers ++ [(5000, id)] }

/-- The timer callback `() => { this.removeNotification(id); }` for the
pending timer at position `i` of the queue; the timer is consumed. -/
def fireTimer {User : Type} (s : Store User) (i : Nat) : Store User :=
  match s.timers[i]? with
  | none => s
  | some (_, id) => removeNotification { s with timers := s.timers.eraseIdx i } id

/-- A store reached from `s` by successive `addNotification` calls, one per
entry `(message, type, now)` of `calls`, oldest first. -/
def addAll {User : Type} (s : Store User) (calls : List (String × Option String × Int)) :
    Store User :=
  calls.foldl (fun st c => addNotification st c.1 c.2.1 c.2.2) s

/-! ## Toasts -/

/-- A child element of `document.body`, as far as `showToast` writes it: its
local name, its `className`, and the string that was assigned to its
`innerHTML` (what reading `innerHTML` back gives is not modelled). -/
structure Element where
  localName : String
  className : String
  assignedHTML : String
deriving DecidableEq

/-- The element that `this.parentElement.parentElement` is for the button of
a toast in the body: the toast itself, the body (when the button is a child of
the toast), or anything else (an element inside the toast, or no button). -/
inductive Grandparent where
  | toast
  | body
  | other
deriving DecidableEq

/-- The body element: its children in order, each with the identity of its
node object; whether it is still in the document, so that `document.body` is
it and not `null`; the next unused identity; and the pending `setTimeout`
callbacks `() => toast.remove()`, each as its delay and the node its closure
captured. -/
structure Page where
  body : List (Nat × Element)
  attached : Bool
  nextRef : Nat
  timers : List (Nat × Nat)

/-- The template literal assigned to `toast.innerHTML`. -/
def toastHTML (message : String) : String :=
  "
        <div class=\"flex items-center\">
            <div class=\"flex-1\">
                <p class=\"font-semibold\">" ++ message ++ "</p>
            </div>
            <button onclick=\"this.parentElement.parentElement.remove()\" class=\"ml-4 text-gray-400 hover:text-gray-600\">
                <svg class=\"w-5 h-5\" fill=\"currentColor\" viewBox=\"0 0 20 20\">
                    <path fill-rule=\"evenodd\" d=\"M4.293 4.293a1 1 0 011.414 0L10 8.586l4.293-4.293a1 1 0 111.414 1.414L11.414 10l4.293 4.293a1 1 0 01-1.414 1.414L10 11.414l-4.293 4.293a1 1 0 01-1.414-1.414L8.586 10 4.293 5.707a1 1 0 010-1.414z\" clip-rule=\"evenodd\"></path>
                </svg>
            </button>
        </div>
    "

/-- The method `node.remove()`: the node leaves its parent's child list; a
node that is not a child of the body is left alone. -/
def Page.remove (p : Page) (ref : Nat) : Page :=
  { p with body := p.body.filter (fun c => decide (c.1 ≠ ref)) }

/-- The function `showToast(message, type = 'info')`: `.ok` with the page
after the call and the identity of the created `div`.  When `document.body`
is `null`, `document.body.appendChild(toast)` throws a `TypeError` after the
`div` was created and before the timer is set. -/
def showToast (p : Page) (message : String) (type : Option String) :
    Except Page (Page × Nat) :=
  let ref := p.nextRef
  let toast : Element :=
    { localName := "div"
      className := "toast toast-" ++ typeOrInfo type
      assignedHTML := toastHTML message }
  if p.attached then
    .ok ({ p with
           body := p.body ++ [(ref, toast)]
           nextRef := p.nextRef + 1
           timers := p.timers ++ [(5000, ref)] }, ref)
  else
    .error { p with nextRef := p.nextRef + 1 }

/-- A click on the button of the toast `toast` runs
`this.parentElement.parentElement.remove()`.  Which element that is depends on
how the browser parsed the markup assigned to the toast, in which the message
is not escaped; `grandparent` gives it from that markup.  A toast that has
left the body has no button to click. -/
def dismiss (grandparent : String → Grandparent) (p : Page) (toast : Nat) : Page :=
  match p.body.find? (fun c => c.1 == toast) with
  | none => p
  | some c =>
    match grandparent c.2.assignedHTML with
    | .toast => p.remove toast
    | .body => { p with attached := false }
    | .other => p

/-- The timer callback `() => { toast.remove(); }` for the pending timer at
position `i` of the queue; the timer is consumed. -/
def Page.fireTimer (p : Page) (i : Nat) : Page :=
  match p.timers[i]? with
  | none => p
  | some (_, ref) => { p with timers := p.timers.eraseIdx i }.remove ref

/-- Node identities are handed out once: every child of the body has an
identity below `nextRef`, and no identity occurs twice. -/
def Page.WF (p : Page) : Prop :=
  (∀ c ∈ p.body, c.1 < p.nextRef) ∧ (p.body.map Prod.fst).Nodup

instance Page.decidableWF (p : Page) : Decidable p.WF := by
  unfold Page.WF
  infer_instance

/-- A page with one child in its body and no pending timer. -/
def mainPage : Page :=
  { body := [(0, { localName := "main", className := "", assignedHTML := "" })]
    attached := true
    nextRef := 1
    timers := [] }

/-- The button's grandparent for the two messages of the sample runs.  With
the plain text `Saved` the template nests as written and it is the toast.
With `</p></div></div>` the three end tags close the `p` and both `div`s of
the template, the button becomes a child of the toast, and it is the body.
Other markup is not described. -/
def sampleGrandparent (html : String) : Grandparent :=
  if html = toastHTML "Saved" then .toast
  else if html = toastHTML "</p></div></div>" then .body
  else .other

/-! ## The document tree -/

/-- What the helpers read or write of an element: its local name, its ID
(`none` when it has none), whether it has the `required` attribute, its
`value` when that is a string (`none` when reading `value` gives no string,
as for an element outside the HTML namespace, where it is `undefined`), the
tokens of its `classList`, and its `disabled` property. -/
structure Attrs where
  tag : String
  id : Option String
  required : Bool
  value : Option String
  classList : List String
  disabled : Bool
deriving DecidableEq

/-- A node of the document: a text node or an element with its child nodes. -/
inductive Node where
  | text (data : String)
  | element (attrs : Attrs) (children : List Node)

/-- A node is addressed by the child indices leading to it from the root. -/
abbrev Path := List Nat

/-- The node at a path, if the path leads to one. -/
def Node.get? : Node → Path → Option Node
  | n, [] => some n
  | .text _, _ :: _ => none
  | .element _ cs, i :: p =>
    match cs[i]? with
    | none => none
    | some c => c.get? p

/-- The attributes of a node, if it is an element. -/
def Node.attrs? : Node → Option Attrs
  | .text _ => none
  | .element a _ => some a

/-- The children of a node; a text node has none. -/
def Node.children : Node → List Node
  | .text _ => []
  | .element _ cs => cs

/-- The attributes of the element at a path. -/
def attrsAt (doc : Node) (p : Path) : Option Attrs :=
  (doc.get? p).bind Node.attrs?

/-- The data of a node, if it is a text node. -/
def Node.text? : Node → Option String
  | .text d => some d
  | .element _ _ => none

/-- The data of the text node at a path. -/
def textAt (doc : Node) (p : Path) : Option String :=
  (doc.get? p).bind Node.text?

/-- Replace the node at a path by its image under `f` (an assignment through
a reference to that node); a path leading nowhere changes nothing. -/
def Node.modify (f : Node → Node) : Path → Node → Node
  | [], n => f n
  | _ :: _, .text d => .text d
  | i :: p, .element a cs => .element a (cs.modify (Node.modify f p) i)

/-- Apply `f` to the attributes of an element, keeping its children. -/
def Node.mapAttrs (f : Attrs → Attrs) : Node → Node
  | .text d => .text d
  | .element a cs => .element (f a) cs

mutual
/-- The path of the first element in tree order whose ID is `id`. -/
def Node.findById (id : String) : Node → Option Path
  | .text _ => none
  | .element a cs => if a.id = some id then some [] else findByIdFrom id 0 cs
/-- The search of `Node.findById` through the children from index `i` on. -/
def findByIdFrom (id : String) : Nat → List Node → Option Path
  | _, [] => none
  | i, c :: cs =>
    match c.findById id with
    | some p => some (i :: p)
    | none => findByIdFrom id (i + 1) cs
end

/-- The call `document.getElementById(id)`; `none` is `null`. -/
def getElementById (doc : Node) (id : String) : Option Path :=
  doc.findById id

mutual
/-- The paths of a node and of all its descendants, in tree order. -/
def Node.paths : Node → List Path
  | .text _ => [[]]
  | .element _ cs => [] :: pathsFrom 0 cs
/-- The paths of `Node.paths` through the children from index `i` on. -/
def pathsFrom : Nat → List Node → List Path
  | _, [] => []
  | i, c :: cs => (c.paths.map (fun p => i :: p)) ++ pathsFrom (i + 1) cs
end

/-- The selector `input[required], textarea[required], select[required]`. -/
def requiredField (a : Attrs) : Bool :=
  (a.tag == "input" || a.tag == "textarea" || a.tag == "select") && a.required

/-- The call `form.querySelectorAll('input[required], textarea[required],
select[required]')`: the matching descendants of the element at `form`, in
tree order, as paths from the document root. -/
def querySelectorAll (doc : Node) (form : Path) : List Path :=
  match doc.get? form with
  | none => []
  | some n =>
    ((n.paths.filter (fun q => !q.isEmpty &&
        match attrsAt n q with
        | some a => requiredField a
        | none => false)).map (fun q => form ++ q))

/-- White space and line terminators of ECMAScript, which `trim` strips. -/
def isWhiteSpace (c : Char) : Bool :=
  let n := c.toNat
  n == 0x09 || n == 0x0A || n == 0x0B || n == 0x0C || n == 0x0D || n == 0x20 ||
  n == 0xA0 || n == 0x1680 || (0x2000 ≤ n && n ≤ 0x200A) || n == 0x2028 ||
  n == 0x2029 || n == 0x202F || n == 0x205F || n == 0x3000 || n == 0xFEFF

/-- The method `String.prototype.trim`. -/
def trim (s : String) : String :=
  ⟨((s.data.dropWhile isWhiteSpace).reverse.dropWhile isWhiteSpace).reverse⟩

/-- The method `classList.add(token)`. -/
def classListAdd (token : String) (a : Attrs) : Attrs :=
  { a with classList := if token ∈ a.classList then a.classList else a.classList ++ [token] }

/-- The method `classList.remove(token)`. -/
def classListRemove (token : String) (a : Attrs) : Attrs :=
  { a with classList := a.classList.filter (fun c => decide (c ≠ token)) }

/-- What the `forEach` callback of `validateForm` does to the attributes of
an input whose value is a string: it adds the marker class if the trimmed
value is empty and removes it otherwise. -/
def markInvalid (a : Attrs) : Attrs :=
  match a.value with
  | none => a
  | some v =>
    if trim v = "" then classListAdd "border-red-500" a
    else classListRemove "border-red-500" a

/-- The body of the `forEach` callback of `validateForm`, on the state
`(isValid, document)`.  When `input.value` is not a string, the call
`input.value.trim()` throws a `TypeError`; the error carries the document as
it is at that moment. -/
def visitInput (st : Bool × Node) (input : Path) : Except Node (Bool × Node) :=
  match attrsAt st.2 input with
  | none => .ok st
  | some a =>
    match a.value with
    | none => .error st.2
    | some v =>
      if trim v = "" then
        .ok (false, st.2.modify (Node.mapAttrs (classListAdd "border-red-500")) input)
      else
        .ok (st.1, st.2.modify (Node.mapAttrs (classListRemove "border-red-500")) input)

/-- The method `inputs.forEach(callback)`: the callback runs on each entry in
order; when it throws, the loop ends and the error propagates. -/
def forEach (callback : Bool × Node → Path → Except Node (Bool × Node)) :
    List Path → Bool × Node → Except Node (Bool × Node)
  | [], st => .ok st
  | input :: rest, st =>
    match callback st input with
    | .error d => .error d
    | .ok st' => forEach callback rest st'

/-- The function `validateForm(formId)`: `.ok (b, d)` when it returns `b` and
leaves the document `d`, `.error d` when it throws and leaves the document
`d`. -/
def validateForm (doc : Node) (formId : String) : Except Node (Bool × Node) :=
  match getElementById doc formId with
  | none => .ok (false, doc)
  | some form =>
    let inputs := querySelectorAll doc form
    forEach visitInput inputs (true, doc)

/-- The assignment `element.disabled = b`. -/
def setDisabled (b : Bool) (n : Node) : Node :=
  n.mapAttrs (fun a => { a with disabled := b })

/-- What the browser makes of an assignment to `innerHTML`, which this file
does not define: from the element's attributes, its children and the assigned
string, the `value` the element has afterwards and its children afterwards.
The result depends on the element: the fragment is parsed in its context
(raw text in a `textarea`, whose value follows; into the separate contents of
a `template`, whose children stay).  The assignment is taken to succeed. -/
abbrev InnerHTML := Attrs → List Node → String → Option String × List Node

/-- The assignment `element.innerHTML = html`, performed by the browser's
setter `innerHTML`. -/
def setInnerHTML (innerHTML : InnerHTML) (html : String) : Node → Node
  | .text d => .text d
  | .element a cs =>
    .element { a with value := (innerHTML a cs html).1 } (innerHTML a cs html).2

/-- The function `setLoading(elementId, isLoading)`: the document after the
call, in a browser whose `innerHTML` setter is `innerHTML`. -/
def setLoading (innerHTML : InnerHTML) (doc : Node) (elementId : String) (isLoading : Bool) :
    Node :=
  match getElementById doc elementId with
  | none => doc
  | some element =>
    if isLoading then
      doc.modify (fun n =>
        setInnerHTML innerHTML "<span class=\"spinner\"></span> Loading..."
          (setDisabled true n)) element
    else
      doc.modify (setDisabled false) element

mutual
/-- The property `textContent` of a node: the text of its descendants. -/
def Node.textContent : Node → String
  | .text d => d
  | .element _ cs => textContentOf cs
/-- The concatenated `textContent` of a list of nodes. -/
def textContentOf : List Node → String
  | [] => ""
  | c :: cs => c.textContent ++ textContentOf cs
end

/-! ## Sample documents -/

/-- An element without ID, value or classes. -/
def plain (tag : String) (children : List Node) : Node :=
  .element { tag := tag, id := none, required := false, value := none, classList := [],
             disabled := false } children

/-- An HTML form control without children; its value is a string. -/
def control (tag : String) (required : Bool) (value : String) (classList : List String) : Node :=
  .element { tag := tag, id := none, required := required, value := some value,
             classList := classList, disabled := false } []

/-- A page with a form `signup` and a button `save`.  The form holds a
required input with only white space, an optional input that carries a stale
marker, a nested required select with a value and a stale marker, and text. -/
def samplePage : Node :=
  plain "html" [
    plain "body" [
      .element { tag := "form", id := some "signup", required := false, value := none,
                 classList := [], disabled := false } [
        control "input" true " \t" [],
        control "input" false "" ["border-red-500"],
        plain "div" [control "select" true "de" ["border-red-500", "wide"]],
        .text "Sign up" ],
      .element { tag := "button", id := some "save", required := false, value := some "",
                 classList := ["btn"], disabled := false } [.text "Save"] ] ]

/-- A page whose form `signup` holds a required HTML input with only white
space, then inside an `svg` a required element of local name `input` in the
SVG namespace, which has no `value`, then a required HTML input with a value
and a stale marker. -/
def svgPage : Node :=
  plain "html" [
    plain "body" [
      .element { tag := "form", id := some "signup", required := false, value := none,
                 classList := [], disabled := false } [
        control "input" true "  " [],
        plain "svg" [
          .element { tag := "input", id := none, required := true, value := none,
                     classList := [], disabled := false } [] ],
        control "input" true "ok" ["border-red-500"] ] ] ]

/-- The nodes that the fragment `<span class="spinner"></span> Loading...`
parses to in an element with ordinary content, such as a `button` or a
`div`: an empty `span` of class `spinner` and a text node. -/
def loadingHTML : List Node :=
  [ .element { tag := "span", id := none, required := false, value := none,
               classList := ["spinner"], disabled := false } [],
    .text " Loading..." ]

/-- The `innerHTML` setter as far as the sample runs need it: on an element
with ordinary content, such as the `button` of the sample page, the fragment
`<span class="spinner"></span> Loading...` gives the children `loadingHTML`,
and the value, which a button takes from its attribute, stays.  Other
fragments are not described; for them the element is left as it is. -/
def buttonInnerHTML : InnerHTML :=
  fun a cs html =>
    if html = "<span class=\"spinner\"></span> Loading..." then (a.value, loadingHTML)
    else (a.value, cs)

/-! ## Lemmas on paths into the document -/

theorem get?_nil (d : Node) : d.get? [] = some d := by
  cases d <;> rfl

theorem get?_cons_element (a : Attrs) (cs : List Node) (i : Nat) (p : Path) :
    (Node.element a cs).get? (i :: p) = (cs[i]?).bind (fun c => c.get? p) := by
  simp only [Node.get?]
  cases cs[i]? <;> rfl

theorem get?_cons_text (s : String) (i : Nat) (p : Path) :
    (Node.text s).get? (i :: p) = none := rfl

theorem get?_append (p q : Path) (d : Node) :
    d.get? (p ++ q) = (d.get? p).bind (fun n => n.get? q) := by
  induction p generalizing d with
  | nil => simp [get?_nil]
  | cons i p ih =>
    cases d with
    | text s => simp [get?_cons_text]
    | element a cs =>
      simp only [List.cons_append, get?_cons_element]
      cases cs[i]? with
      | none => rfl
      | some c => simpa using ih c

theorem get?_modify_self (f : Node → Node) (p : Path) (d : Node) :
    (d.modify f p).get? p = (d.get? p).map f := by
  induction p generalizing d with
  | nil => simp [Node.modify, get?_nil]
  | cons i p ih =>
    cases d with
    | text s => simp [Node.modify, get?_cons_text]
    | element a cs =>
      simp only [Node.modify, get?_cons_element, List.getElem?_modify_eq]
      cases cs[i]? with
      | none => rfl
      | some c => simpa using ih c

theorem attrsAt_modify_mapAttrs (g : Attrs → Attrs) (q : Path) (d : Node) (p : Path) :
    attrsAt (d.modify (Node.mapAttrs g) q) p
      = if p = q then (attrsAt d p).map g else attrsAt d p := by
  induction q generalizing d p with
  | nil =>
    cases d with
    | text s => cases p <;> simp [Node.modify, Node.mapAttrs, attrsAt, get?_nil, get?_cons_text, Node.attrs?]
    | element a cs =>
      cases p with
      | nil => simp [Node.modify, Node.mapAttrs, attrsAt, get?_nil, Node.attrs?]
      | cons i p => simp [Node.modify, Node.mapAttrs, attrsAt, get?_cons_element]
  | cons j q ih =>
    cases d with
    | text s => cases p <;> simp [Node.modify, attrsAt, get?_nil, get?_cons_text, Node.attrs?]
    | element a cs =>
      cases p with
      | nil => simp [Node.modify, attrsAt, get?_nil, Node.attrs?]
      | cons i p =>
        simp only [Node.modify, attrsAt, get?_cons_element, List.getElem?_modify]
        cases hc : cs[i]? with
        | none => simp
        | some c =>
          by_cases hji : j = i
          · subst hji
            have := ih c p
            simp only [attrsAt] at this
            simp [this]
          · have hne : ¬ (i = j) := fun h => hji h.symm
            simp [hji, hne]

theorem textAt_modify_mapAttrs (g : Attrs → Attrs) (q : Path) (d : Node) (p : Path) :
    textAt (d.modify (Node.mapAttrs g) q) p = textAt d p := by
  induction q generalizing d p with
  | nil =>
    cases d with
    | text s => rfl
    | element a cs =>
      cases p with
      | nil => simp [Node.modify, Node.mapAttrs, textAt, get?_nil, Node.text?]
      | cons i p => simp [Node.modify, Node.mapAttrs, textAt, get?_cons_element]
  | cons j q ih =>
    cases d with
    | text s => rfl
    | element a cs =>
      cases p with
      | nil => simp [Node.modify, textAt, get?_nil, Node.text?]
      | cons i p =>
        simp only [Node.modify, textAt, get?_cons_element, List.getElem?_modify]
        cases hc : cs[i]? with
        | none => simp
        | some c =>
          by_cases hji : j = i
          · subst hji
            have := ih c p
            simp only [textAt] at this
            simp [this]
          · simp [hji]

/-! ## Lemmas on `getElementById` -/

theorem findByIdFrom_eq_some (id : String) (cs : List Node) (k : Nat) (q : Path) :
    findByIdFrom id k cs = some q ↔
      ∃ i c p, cs[i]? = some c ∧ c.findById id = some p
        ∧ (∀ j c', j < i → cs[j]? = some c' → c'.findById id = none)
        ∧ q = (k + i) :: p := by
  induction cs generalizing k with
  | nil => simp [findByIdFrom]
  | cons c cs ih =>
    rw [findByIdFrom]
    cases h : c.findById id with
    | some p₀ =>
      constructor
      · intro hq
        refine ⟨0, c, p₀, List.getElem?_cons_zero, h, ?_, ?_⟩
        · intro j c' hj
          exact absurd hj (Nat.not_lt_zero j)
        · simpa using hq.symm
      · rintro ⟨i, c', p, hi, hp, hbefore, rfl⟩
        cases i with
        | zero =>
          simp only [List.getElem?_cons_zero, Option.some.injEq] at hi
          subst hi
          rw [h] at hp
          simp only [Option.some.injEq] at hp
          simp [hp]
        | succ i =>
          have := hbefore 0 c (Nat.succ_pos i) List.getElem?_cons_zero
          rw [h] at this
          exact absurd this (by simp)
    | none =>
      simp only []
      rw [ih (k + 1)]
      constructor
      · rintro ⟨i, c', p, hi, hp, hbefore, rfl⟩
        refine ⟨i + 1, c', p, by simpa using hi, hp, ?_, by simp [Nat.add_assoc, Nat.add_comm 1 i]⟩
        intro j c'' hj hj'
        cases j with
        | zero =>
          simp only [List.getElem?_cons_zero, Option.some.injEq] at hj'
          subst hj'
          exact h
        | succ j =>
          exact hbefore j c'' (Nat.lt_of_succ_lt_succ hj) (by simpa using hj')
      · rintro ⟨i, c', p, hi, hp, hbefore, rfl⟩
        cases i with
        | zero =>
          simp only [List.getElem?_cons_zero, Option.some.injEq] at hi
          subst hi
          rw [h] at hp
          exact absurd hp (by simp)
        | succ i =>
          refine ⟨i, c', p, by simpa using hi, hp, ?_, by simp [Nat.add_assoc, Nat.add_comm 1 i]⟩
          intro j c'' hj hj'
          exact hbefore (j + 1) c'' (Nat.succ_lt_succ hj) (by simpa using hj')

theorem findByIdFrom_eq_none (id : String) (cs : List Node) (k : Nat) :
    findByIdFrom id k cs = none ↔ ∀ c ∈ cs, c.findById id = none := by
  induction cs generalizing k with
  | nil => simp [findByIdFrom]
  | cons c cs ih =>
    rw [findByIdFrom]
    cases h : c.findById id with
    | some p₀ => simp [h]
    | none => simp [h, ih (k + 1)]

theorem findById_element (id : String) (a : Attrs) (cs : List Node) :
    (Node.element a cs).findById id
      = if a.id = some id then some [] else findByIdFrom id 0 cs := by
  rw [Node.findById]

/-- The path `getElementById` returns leads to an element whose ID is `id`. -/
theorem findById_sound (id : String) (p : Path) (d : Node) (h : d.findById id = some p) :
    ∃ a, attrsAt d p = some a ∧ a.id = some id := by
  induction p generalizing d with
  | nil =>
    cases d with
    | text s => simp [Node.findById] at h
    | element a cs =>
      rw [findById_element] at h
      by_cases ha : a.id = some id
      · exact ⟨a, by simp [attrsAt, get?_nil, Node.attrs?], ha⟩
      · rw [if_neg ha, findByIdFrom_eq_some] at h
        obtain ⟨i, c, p, _, _, _, hq⟩ := h
        simp at hq
  | cons i p ih =>
    cases d with
    | text s => simp [Node.findById] at h
    | element a cs =>
      rw [findById_element] at h
      by_cases ha : a.id = some id
      · simp [ha] at h
      · rw [if_neg ha, findByIdFrom_eq_some] at h
        obtain ⟨j, c, p', hj, hp, _, hq⟩ := h
        simp only [Nat.zero_add, List.cons.injEq] at hq
        obtain ⟨rfl, rfl⟩ := hq
        obtain ⟨a', ha', hid⟩ := ih c hp
        refine ⟨a', ?_, hid⟩
        simp only [attrsAt, get?_cons_element, hj] at ha' ⊢
        simpa using ha'

/-- If some element of the document has ID `id`, `getElementById` finds one. -/
theorem findById_complete (id : String) (p : Path) (d : Node) (a : Attrs)
    (h : attrsAt d p = some a) (hid : a.id = some id) : ∃ q, d.findById id = some q := by
  induction p generalizing d with
  | nil =>
    cases d with
    | text s => simp [attrsAt, get?_nil, Node.attrs?] at h
    | element a' cs =>
      simp only [attrsAt, get?_nil, Option.some_bind, Node.attrs?, Option.some.injEq] at h
      subst h
      exact ⟨[], by rw [findById_element, if_pos hid]⟩
  | cons i p ih =>
    cases d with
    | text s => simp [attrsAt, get?_cons_text] at h
    | element a' cs =>
      rw [findById_element]
      by_cases ha : a'.id = some id
      · exact ⟨[], by rw [if_pos ha]⟩
      · rw [if_neg ha]
        simp only [attrsAt, get?_cons_element] at h
        cases hc : cs[i]? with
        | none => simp [hc] at h
        | some c =>
          simp only [hc, Option.some_bind] at h
          obtain ⟨q, hq⟩ := ih c h
          cases hf : findByIdFrom id 0 cs with
          | some q' => exact ⟨q', rfl⟩
          | none =>
            rw [findByIdFrom_eq_none] at hf
            have := hf c (List.getElem?_mem hc)
            rw [hq] at this
            exact absurd this (by simp)

theorem getElementById_eq_none (doc : Node) (id : String)
    (h : ∀ p a, attrsAt doc p = some a → a.id ≠ some id) : getElementById doc id = none := by
  cases hf : getElementById doc id with
  | none => rfl
  | some p =>
    obtain ⟨a, ha, hid⟩ := findById_sound id p doc hf
    exact absurd hid (h p a ha)

theorem getElementById_of_exists (doc : Node) (id : String)
    (h : ∃ p a, attrsAt doc p = some a ∧ a.id = some id) :
    ∃ el a, getElementById doc id = some el ∧ attrsAt doc el = some a ∧ a.id = some id := by
  obtain ⟨p, a, ha, hid⟩ := h
  obtain ⟨q, hq⟩ := findById_complete id p doc a ha hid
  obtain ⟨a', ha', hid'⟩ := findById_sound id q doc hq
  exact ⟨q, a', hq, ha', hid'⟩

/-- An assignment to the element `getElementById` found that keeps its ID
leaves it the element `getElementById` finds. -/
theorem findById_modify (id : String) (f : Node → Node)
    (hf : ∀ a cs, a.id = some id → ∃ a' cs', f (.element a cs) = .element a' cs' ∧ a'.id = some id)
    (p : Path) (d : Node) (h : d.findById id = some p) :
    (d.modify f p).findById id = some p := by
  induction p generalizing d with
  | nil =>
    cases d with
    | text s => simp [Node.findById] at h
    | element a cs =>
      rw [findById_element] at h
      by_cases ha : a.id = some id
      · obtain ⟨a', cs', he, hid⟩ := hf a cs ha
        simp only [Node.modify, he]
        rw [findById_element, if_pos hid]
      · rw [if_neg ha, findByIdFrom_eq_some] at h
        obtain ⟨i, c, p, _, _, _, hq⟩ := h
        simp at hq
  | cons i p ih =>
    cases d with
    | text s => simp [Node.findById] at h
    | element a cs =>
      rw [findById_element] at h
      by_cases ha : a.id = some id
      · simp [ha] at h
      · rw [if_neg ha, findByIdFrom_eq_some] at h
        obtain ⟨j, c, p', hj, hp, hbefore, hq⟩ := h
        simp only [Nat.zero_add, List.cons.injEq] at hq
        obtain ⟨rfl, rfl⟩ := hq
        simp only [Node.modify]
        rw [findById_element, if_neg ha, findByIdFrom_eq_some]
        refine ⟨i, c.modify f p, p, ?_, ih c hp, ?_, by simp⟩
        · simp [hj]
        · intro j c' hji hj'
          rw [List.getElem?_modify_ne _ _ (Nat.ne_of_gt hji)] at hj'
          exact hbefore j c' hji hj'

/-! ## Lemmas on `querySelectorAll` -/

theorem mem_pathsFrom (cs : List Node) (k : Nat) (q : Path) :
    q ∈ pathsFrom k cs ↔ ∃ i c p, cs[i]? = some c ∧ p ∈ c.paths ∧ q = (k + i) :: p := by
  induction cs generalizing k with
  | nil => simp [pathsFrom]
  | cons c cs ih =>
    rw [pathsFrom, List.mem_append, ih (k + 1), List.mem_map]
    constructor
    · rintro (⟨p, hp, rfl⟩ | ⟨i, c', p, hi, hp, rfl⟩)
      · exact ⟨0, c, p, List.getElem?_cons_zero, hp, by simp⟩
      · exact ⟨i + 1, c', p, by simpa using hi, hp, by simp [Nat.add_assoc, Nat.add_comm 1 i]⟩
    · rintro ⟨i, c', p, hi, hp, rfl⟩
      cases i with
      | zero =>
        simp only [List.getElem?_cons_zero, Option.some.injEq] at hi
        subst hi
        exact Or.inl ⟨p, hp, by simp⟩
      | succ i =>
        exact Or.inr ⟨i, c', p, by simpa using hi, hp, by simp [Nat.add_assoc, Nat.add_comm 1 i]⟩

theorem mem_paths (p : Path) (d : Node) : p ∈ d.paths ↔ ∃ n, d.get? p = some n := by
  induction p generalizing d with
  | nil => cases d <;> simp [Node.paths, get?_nil]
  | cons i p ih =>
    cases d with
    | text s => simp [Node.paths, get?_cons_text]
    | element a cs =>
      rw [Node.paths, List.mem_cons, mem_pathsFrom, get?_cons_element]
      constructor
      · rintro (h | ⟨j, c, p', hj, hp, hq⟩)
        · exact absurd h (by simp)
        · simp only [Nat.zero_add, List.cons.injEq] at hq
          obtain ⟨rfl, rfl⟩ := hq
          obtain ⟨n, hn⟩ := (ih c).1 hp
          exact ⟨n, by simp [hj, hn]⟩
      · rintro ⟨n, hn⟩
        cases hc : cs[i]? with
        | none => simp [hc] at hn
        | some c =>
          simp only [hc, Option.some_bind] at hn
          exact Or.inr ⟨i, c, p, hc, (ih c).2 ⟨n, hn⟩, by simp⟩

theorem attrsAt_append (doc : Node) (form q : Path) (n : Node) (h : doc.get? form = some n) :
    attrsAt doc (form ++ q) = attrsAt n q := by
  simp [attrsAt, get?_append, h]

/-- The paths `querySelectorAll` returns are those of the proper descendants
of the form that match the selector. -/
theorem mem_querySelectorAll (doc : Node) (form p : Path) :
    p ∈ querySelectorAll doc form ↔
      ∃ q a, q ≠ [] ∧ p = form ++ q ∧ attrsAt doc p = some a ∧ requiredField a = true := by
  unfold querySelectorAll
  cases hn : doc.get? form with
  | none =>
    simp only [List.not_mem_nil, false_iff]
    rintro ⟨q, a, _, rfl, ha, _⟩
    simp [attrsAt, get?_append, hn] at ha
  | some n =>
    simp only [List.mem_map, List.mem_filter, mem_paths]
    constructor
    · rintro ⟨q, ⟨_, hq⟩, rfl⟩
      rw [Bool.and_eq_true] at hq
      obtain ⟨hq₁, hq₂⟩ := hq
      rw [attrsAt_append doc form q n hn]
      cases ha : attrsAt n q with
      | none => simp [ha] at hq₂
      | some a =>
        simp only [ha] at hq₂
        refine ⟨q, a, ?_, rfl, rfl, hq₂⟩
        intro h
        simp [h] at hq₁
    · rintro ⟨q, a, hq, rfl, ha, hr⟩
      rw [attrsAt_append doc form q n hn] at ha
      refine ⟨q, ⟨?_, ?_⟩, rfl⟩
      · simp only [attrsAt] at ha
        cases hg : n.get? q with
        | none => simp [hg] at ha
        | some m => exact ⟨m, rfl⟩
      · rw [Bool.and_eq_true]
        refine ⟨?_, by simp [ha, hr]⟩
        cases q with
        | nil => exact absurd rfl hq
        | cons i q => rfl

/-! ## Lemmas on the `forEach` of `validateForm` -/

theorem markInvalid_value (a : Attrs) : (markInvalid a).value = a.value := by
  unfold markInvalid
  split
  · rfl
  · split <;> rfl

theorem markInvalid_idem (a : Attrs) : markInvalid (markInvalid a) = markInvalid a := by
  cases hv : a.value with
  | none =>
    have h₁ : markInvalid a = a := by
      unfold markInvalid
      rw [hv]
    rw [h₁, h₁]
  | some v =>
    by_cases h : trim v = ""
    · have h₁ : markInvalid a = classListAdd "border-red-500" a := by
        unfold markInvalid
        rw [hv]
        simp only [if_pos h]
      have h₂ : (classListAdd "border-red-500" a).value = some v := hv
      rw [h₁]
      unfold markInvalid
      rw [h₂]
      simp only [if_pos h]
      by_cases hm : "border-red-500" ∈ a.classList
      · simp [classListAdd, hm]
      · simp [classListAdd, hm]
    · have h₁ : markInvalid a = classListRemove "border-red-500" a := by
        unfold markInvalid
        rw [hv]
        simp only [if_neg h]
      have h₂ : (classListRemove "border-red-500" a).value = some v := hv
      rw [h₁]
      unfold markInvalid
      rw [h₂]
      simp only [if_neg h]
      simp [classListRemove, List.filter_filter]

theorem forall_value_congr (P : Option String → Prop) (x y : Option Attrs)
    (h : x.map Attrs.value = y.map Attrs.value) :
    (∀ a, x = some a → P a.value) ↔ (∀ a, y = some a → P a.value) := by
  cases x with
  | none =>
    cases y with
    | none => simp
    | some b => simp at h
  | some a =>
    cases y with
    | none => simp at h
    | some b =>
      simp only [Option.map_some', Option.some.injEq] at h
      constructor
      · intro hx c hc
        have := hx a rfl
        rw [h] at this
        cases hc
        exact this
      · intro hy c hc
        have := hy b rfl
        rw [← h] at this
        cases hc
        exact this

theorem visitInput_error (st : Bool × Node) (p : Path) (a : Attrs)
    (ha : attrsAt st.2 p = some a) (hv : a.value = none) :
    visitInput st p = .error st.2 := by
  unfold visitInput
  simp only [ha]
  rw [hv]

theorem visitInput_ok (st : Bool × Node) (p : Path)
    (h : ∀ a, attrsAt st.2 p = some a → a.value ≠ none) :
    ∃ st', visitInput st p = .ok st'
      ∧ (∀ q, textAt st'.2 q = textAt st.2 q)
      ∧ (∀ q, attrsAt st'.2 q
            = if q = p then (attrsAt st.2 q).map markInvalid else attrsAt st.2 q)
      ∧ (st'.1 = true ↔
          st.1 = true ∧ ∀ a v, attrsAt st.2 p = some a → a.value = some v → trim v ≠ "") := by
  unfold visitInput
  cases ha : attrsAt st.2 p with
  | none =>
    refine ⟨st, rfl, fun _ => rfl, ?_, by simp⟩
    intro q
    by_cases hq : q = p
    · subst hq
      simp [ha]
    · simp [hq]
  | some a =>
    cases hv : a.value with
    | none => exact absurd hv (h a ha)
    | some v =>
      have hmark : markInvalid a
          = if trim v = "" then classListAdd "border-red-500" a
            else classListRemove "border-red-500" a := by
        unfold markInvalid
        rw [hv]
      simp only [hv]
      by_cases he : trim v = ""
      · rw [if_pos he]
        refine ⟨_, rfl, fun q => textAt_modify_mapAttrs _ _ _ _, ?_, ?_⟩
        · intro q
          simp only [attrsAt_modify_mapAttrs]
          by_cases hq : q = p
          · subst hq
            simp [ha, hmark, he]
          · simp [hq]
        · simp only [Bool.false_eq_true, false_iff, not_and]
          intro _ hall
          exact hall a v rfl hv he
      · rw [if_neg he]
        refine ⟨_, rfl, fun q => textAt_modify_mapAttrs _ _ _ _, ?_, ?_⟩
        · intro q
          simp only [attrsAt_modify_mapAttrs]
          by_cases hq : q = p
          · subst hq
            simp [ha, hmark, he]
          · simp [hq]
        · constructor
          · intro hv'
            refine ⟨hv', ?_⟩
            intro a' v' ha' hv''
            cases ha'
            rw [hv] at hv''
            cases hv''
            exact he
          · intro hv'
            exact hv'.1

theorem map_value_step (x : Option Attrs) (c : Prop) [Decidable c] :
    (if c then x.map markInvalid else x).map Attrs.value = x.map Attrs.value := by
  by_cases hc : c
  · rw [if_pos hc]
    cases x with
    | none => rfl
    | some a => simp [markInvalid_value]
  · rw [if_neg hc]

/-- The loop over inputs that all have a string value runs to its end. -/
theorem forEach_visitInput_ok (ps : List Path) (st : Bool × Node)
    (h : ∀ p ∈ ps, ∀ a, attrsAt st.2 p = some a → a.value ≠ none) :
    ∃ r, forEach visitInput ps st = .ok r
      ∧ (∀ q, textAt r.2 q = textAt st.2 q)
      ∧ (∀ q, attrsAt r.2 q
            = if q ∈ ps then (attrsAt st.2 q).map markInvalid else attrsAt st.2 q)
      ∧ (r.1 = true ↔
          st.1 = true ∧ ∀ p ∈ ps, ∀ a v, attrsAt st.2 p = some a → a.value = some v →
            trim v ≠ "") := by
  induction ps generalizing st with
  | nil => exact ⟨st, rfl, fun _ => rfl, by simp, by simp⟩
  | cons p ps ih =>
    obtain ⟨st', hst', ht, ha, hb⟩ := visitInput_ok st p (h p (List.mem_cons_self _ _))
    have hval : ∀ q, (attrsAt st'.2 q).map Attrs.value = (attrsAt st.2 q).map Attrs.value := by
      intro q
      rw [ha q]
      exact map_value_step _ _
    have h' : ∀ p' ∈ ps, ∀ a, attrsAt st'.2 p' = some a → a.value ≠ none := by
      intro p' hp'
      exact (forall_value_congr (fun v => v ≠ none) _ _ (hval p')).2
        (h p' (List.mem_cons_of_mem _ hp'))
    obtain ⟨r, hr, ht', ha', hb'⟩ := ih st' h'
    refine ⟨r, ?_, ?_, ?_, ?_⟩
    · rw [forEach, hst']
      exact hr
    · intro q
      rw [ht', ht]
    · intro q
      rw [ha', ha]
      by_cases hqp : q = p
      · subst hqp
        by_cases hq : q ∈ ps
        · cases attrsAt st.2 q <;> simp [hq, markInvalid_idem]
        · simp [hq]
      · simp [hqp]
    · rw [hb', hb]
      have key : ∀ p', (∀ a v, attrsAt st'.2 p' = some a → a.value = some v → trim v ≠ "")
          ↔ (∀ a v, attrsAt st.2 p' = some a → a.value = some v → trim v ≠ "") := by
        intro p'
        have := forall_value_congr (fun o => ∀ v, o = some v → trim v ≠ "") _ _ (hval p')
        constructor
        · intro hx a v ha₁ hv₁
          exact this.1 (fun a' ha₂ v' hv₂ => hx a' v' ha₂ hv₂) a ha₁ v hv₁
        · intro hx a v ha₁ hv₁
          exact this.2 (fun a' ha₂ v' hv₂ => hx a' v' ha₂ hv₂) a ha₁ v hv₁
      constructor
      · rintro ⟨⟨hv, hp⟩, hps⟩
        refine ⟨hv, ?_⟩
        intro p' hp'
        rcases List.mem_cons.1 hp' with rfl | hp'
        · exact hp
        · exact (key p').1 (hps p' hp')
      · rintro ⟨hv, hps⟩
        refine ⟨⟨hv, hps p (List.mem_cons_self _ _)⟩, ?_⟩
        intro p' hp'
        exact (key p').2 (hps p' (List.mem_cons_of_mem _ hp'))

/-- The loop throws when one of the inputs has no string value. -/
theorem forEach_visitInput_error (ps : List Path) (st : Bool × Node)
    (h : ∃ p ∈ ps, ∃ a, attrsAt st.2 p = some a ∧ a.value = none) :
    ∃ d, forEach visitInput ps st = .error d := by
  induction ps generalizing st with
  | nil =>
    obtain ⟨p, hp, _⟩ := h
    exact absurd hp (List.not_mem_nil p)
  | cons p ps ih =>
    by_cases hp : ∀ a, attrsAt st.2 p = some a → a.value ≠ none
    · obtain ⟨st', hst', _, ha, _⟩ := visitInput_ok st p hp
      obtain ⟨p', hp', a', ha', hv'⟩ := h
      have hne : p' ≠ p := by
        intro he
        subst he
        exact hp a' ha' hv'
      have hin : p' ∈ ps := by
        rcases List.mem_cons.1 hp' with he | hin
        · exact absurd he hne
        · exact hin
      obtain ⟨d, hd⟩ := ih st' ⟨p', hin, a', by rw [ha p', if_neg hne]; exact ha', hv'⟩
      exact ⟨d, by rw [forEach, hst']; exact hd⟩
    · have hp' : ∃ a, attrsAt st.2 p = some a ∧ a.value = none := by
        by_contra hc
        apply hp
        intro a ha hv
        exact hc ⟨a, ha, hv⟩
      obtain ⟨a, ha, hv⟩ := hp'
      exact ⟨st.2, by rw [forEach, visitInput_error st p a ha hv]⟩

/-! ## Lemmas on `trim` -/

/-- The trimmed string is empty exactly when every character is white space. -/
theorem trim_eq_empty_iff (s : String) :
    trim s = "" ↔ ∀ c ∈ s.data, isWhiteSpace c = true := by
  have h₀ : trim s = "" ↔
      ((s.data.dropWhile isWhiteSpace).reverse.dropWhile isWhiteSpace).reverse = [] := by
    unfold trim
    constructor
    · intro h
      exact congrArg String.data h
    · intro h
      rw [h]
  rw [h₀, List.reverse_eq_nil_iff, List.dropWhile_eq_nil_iff]
  constructor
  · intro h
    have h₁ : ∀ c ∈ s.data.dropWhile isWhiteSpace, isWhiteSpace c = true :=
      fun c hc => h c (List.mem_reverse.2 hc)
    have h₂ : (s.data.dropWhile isWhiteSpace).dropWhile isWhiteSpace = [] :=
      List.dropWhile_eq_nil_iff.2 h₁
    rw [List.dropWhile_idempotent] at h₂
    exact List.dropWhile_eq_nil_iff.1 h₂
  · intro h c hc
    have h₂ : s.data.dropWhile isWhiteSpace = [] := List.dropWhile_eq_nil_iff.2 h
    rw [h₂] at hc
    simp at hc

/-! ## Lemmas for the theorems on the document -/

theorem requiredField_iff (a : Attrs) :
    requiredField a = true ↔
      (a.tag = "input" ∨ a.tag = "textarea" ∨ a.tag = "select") ∧ a.required = true := by
  simp [requiredField, or_assoc]

theorem validateForm_of_found (doc : Node) (formId : String) (form : Path)
    (h : getElementById doc formId = some form) :
    validateForm doc formId = forEach visitInput (querySelectorAll doc form) (true, doc) := by
  simp [validateForm, h]

theorem mem_markInvalid_marker (a : Attrs) (v : String) (hv : a.value = some v) :
    "border-red-500" ∈ (markInvalid a).classList ↔ trim v = "" := by
  unfold markInvalid
  rw [hv]
  by_cases h : trim v = ""
  · simp only [if_pos h]
    by_cases hm : "border-red-500" ∈ a.classList
    · simp [classListAdd, hm, h]
    · simp [classListAdd, hm, h]
  · simp only [if_neg h]
    simp [classListRemove, h]

theorem mem_markInvalid_other (a : Attrs) (c : String) (hc : c ≠ "border-red-500") :
    c ∈ (markInvalid a).classList ↔ c ∈ a.classList := by
  unfold markInvalid
  cases a.value with
  | none => exact Iff.rfl
  | some v =>
    by_cases h : trim v = ""
    · simp only [if_pos h]
      by_cases hm : "border-red-500" ∈ a.classList
      · simp [classListAdd, hm]
      · simp [classListAdd, hm, hc]
    · simp only [if_neg h]
      simp [classListRemove, hc]

theorem markInvalid_fields (a : Attrs) :
    (markInvalid a).tag = a.tag ∧ (markInvalid a).id = a.id
      ∧ (markInvalid a).required = a.required ∧ (markInvalid a).value = a.value
      ∧ (markInvalid a).disabled = a.disabled := by
  unfold markInvalid
  split
  · exact ⟨rfl, rfl, rfl, rfl, rfl⟩
  · split <;> exact ⟨rfl, rfl, rfl, rfl, rfl⟩

theorem get?_of_attrsAt (doc : Node) (p : Path) (a : Attrs) (h : attrsAt doc p = some a) :
    ∃ cs, doc.get? p = some (.element a cs) := by
  unfold attrsAt at h
  cases hg : doc.get? p with
  | none => simp [hg] at h
  | some n =>
    cases n with
    | text s => simp [hg, Node.attrs?] at h
    | element a' cs =>
      simp only [hg, Option.some_bind, Node.attrs?, Option.some.injEq] at h
      exact ⟨cs, by rw [h]⟩

/-- The inputs of the loop and the required fields inside the form are the
same elements. -/
theorem forall_inputs_iff (doc : Node) (form : Path) (P : Attrs → Prop) :
    (∀ p ∈ querySelectorAll doc form, ∀ a, attrsAt doc p = some a → P a) ↔
      ∀ q a, q ≠ [] → attrsAt doc (form ++ q) = some a →
        (a.tag = "input" ∨ a.tag = "textarea" ∨ a.tag = "select") → a.required = true → P a := by
  constructor
  · intro h q a hq ha htag hreq
    exact h (form ++ q)
      ((mem_querySelectorAll doc form _).2
        ⟨q, a, hq, rfl, ha, (requiredField_iff a).2 ⟨htag, hreq⟩⟩) a ha
  · intro h p hp a ha
    obtain ⟨q, a', hq, rfl, ha', hr⟩ := (mem_querySelectorAll doc form p).1 hp
    rw [ha] at ha'
    cases ha'
    exact h q a hq ha ((requiredField_iff a).1 hr).1 ((requiredField_iff a).1 hr).2

/-! ## Theorems on `validateForm` -/

/-- C1, as stated, fails: in the form `signup` of this page a required input
holds only white space, and `validateForm` does not return false, because it
throws at the required `input` of the SVG namespace, which has no `value`. -/
theorem validateForm_throws_without_value :
    getElementById svgPage "signup" = some [0, 0]
    ∧ attrsAt svgPage [0, 0, 0]
        = some { tag := "input", id := none, required := true, value := some "  ",
                 classList := [], disabled := false }
    ∧ trim "  " = ""
    ∧ (validateForm svgPage "signup").toBool = false := by
  decide

/-- C1, amended: when the document has an element with ID `formId`,
`validateForm` returns true if and only if every required `input`, `textarea`
and `select` inside the element `getElementById` finds has a string value that
is not empty after trimming, so it returns true when there is no required
field inside.  When every such field has a string value the call returns, and
it returns false when one of them holds only white space.  When one of them
has no string value the call throws. -/
theorem validateForm_true_iff (doc : Node) (formId : String)
    (hex : ∃ p a, attrsAt doc p = some a ∧ a.id = some formId) :
    ∃ form fa, getElementById doc formId = some form ∧ attrsAt doc form = some fa
      ∧ fa.id = some formId
      ∧ ((∃ d, validateForm doc formId = .ok (true, d)) ↔
          ∀ q a, q ≠ [] → attrsAt doc (form ++ q) = some a →
            (a.tag = "input" ∨ a.tag = "textarea" ∨ a.tag = "select") → a.required = true →
            ∃ v, a.value = some v ∧ trim v ≠ "")
      ∧ ((∀ q a, q ≠ [] → attrsAt doc (form ++ q) = some a →
            (a.tag = "input" ∨ a.tag = "textarea" ∨ a.tag = "select") → a.required = false) →
          ∃ d, validateForm doc formId = .ok (true, d))
      ∧ ((∀ q a, q ≠ [] → attrsAt doc (form ++ q) = some a →
            (a.tag = "input" ∨ a.tag = "textarea" ∨ a.tag = "select") → a.required = true →
            a.value ≠ none) →
          (∃ b d, validateForm doc formId = .ok (b, d))
          ∧ ((∃ q a v, q ≠ [] ∧ attrsAt doc (form ++ q) = some a
                ∧ (a.tag = "input" ∨ a.tag = "textarea" ∨ a.tag = "select")
                ∧ a.required = true ∧ a.value = some v
                ∧ ∀ c ∈ v.data, isWhiteSpace c = true) →
              ∃ d, validateForm doc formId = .ok (false, d)))
      ∧ ((∃ q a, q ≠ [] ∧ attrsAt doc (form ++ q) = some a
            ∧ (a.tag = "input" ∨ a.tag = "textarea" ∨ a.tag = "select")
            ∧ a.required = true ∧ a.value = none) →
          ∃ d, validateForm doc formId = .error d) := by
  obtain ⟨form, fa, hform, hfa, hid⟩ := getElementById_of_exists doc formId hex
  have hrun := validateForm_of_found doc formId form hform
  -- the call returns when every required field has a string value
  have hok : (∀ q a, q ≠ [] → attrsAt doc (form ++ q) = some a →
        (a.tag = "input" ∨ a.tag = "textarea" ∨ a.tag = "select") → a.required = true →
        a.value ≠ none) →
      ∃ r, validateForm doc formId = .ok r
        ∧ (r.1 = true ↔ ∀ q a, q ≠ [] → attrsAt doc (form ++ q) = some a →
            (a.tag = "input" ∨ a.tag = "textarea" ∨ a.tag = "select") → a.required = true →
            ∀ v, a.value = some v → trim v ≠ "") := by
    intro hall
    obtain ⟨r, hr, _, _, hb⟩ := forEach_visitInput_ok (querySelectorAll doc form) (true, doc)
      ((forall_inputs_iff doc form (fun a => a.value ≠ none)).2 hall)
    refine ⟨r, by rw [hrun]; exact hr, ?_⟩
    rw [hb, ← forall_inputs_iff doc form (fun a => ∀ v, a.value = some v → trim v ≠ "")]
    constructor
    · rintro ⟨_, h⟩ p hp a ha v hv
      exact h p hp a v ha hv
    · intro h
      exact ⟨rfl, fun p hp a v ha hv => h p hp a ha v hv⟩
  -- the call throws when some required field has none
  have herr : (∃ q a, q ≠ [] ∧ attrsAt doc (form ++ q) = some a
        ∧ (a.tag = "input" ∨ a.tag = "textarea" ∨ a.tag = "select")
        ∧ a.required = true ∧ a.value = none) →
      ∃ d, validateForm doc formId = .error d := by
    rintro ⟨q, a, hq, ha, htag, hreq, hv⟩
    rw [hrun]
    refine forEach_visitInput_error _ _ ⟨form ++ q, ?_, a, ha, hv⟩
    exact (mem_querySelectorAll doc form _).2
      ⟨q, a, hq, rfl, ha, (requiredField_iff a).2 ⟨htag, hreq⟩⟩
  have hiff : (∃ d, validateForm doc formId = .ok (true, d)) ↔
      ∀ q a, q ≠ [] → attrsAt doc (form ++ q) = some a →
        (a.tag = "input" ∨ a.tag = "textarea" ∨ a.tag = "select") → a.required = true →
        ∃ v, a.value = some v ∧ trim v ≠ "" := by
    constructor
    · rintro ⟨d, hd⟩ q a hq ha htag hreq
      have hall : ∀ q a, q ≠ [] → attrsAt doc (form ++ q) = some a →
          (a.tag = "input" ∨ a.tag = "textarea" ∨ a.tag = "select") → a.required = true →
          a.value ≠ none := by
        intro q' a' hq' ha' htag' hreq' hv'
        obtain ⟨d', hd'⟩ := herr ⟨q', a', hq', ha', htag', hreq', hv'⟩
        rw [hd] at hd'
        exact Except.noConfusion hd'
      obtain ⟨r, hr, hb⟩ := hok hall
      rw [hd] at hr
      cases hr
      cases hv : a.value with
      | none => exact absurd hv (hall q a hq ha htag hreq)
      | some v => exact ⟨v, rfl, hb.1 rfl q a hq ha htag hreq v hv⟩
    · intro h
      have hall : ∀ q a, q ≠ [] → attrsAt doc (form ++ q) = some a →
          (a.tag = "input" ∨ a.tag = "textarea" ∨ a.tag = "select") → a.required = true →
          a.value ≠ none := by
        intro q a hq ha htag hreq hv
        obtain ⟨v, hv', _⟩ := h q a hq ha htag hreq
        rw [hv] at hv'
        exact Option.noConfusion hv'
      obtain ⟨⟨b, d⟩, hr, hb⟩ := hok hall
      have hb' : b = true := by
        apply hb.2
        intro q a hq ha htag hreq v hv
        obtain ⟨v', hv', ht⟩ := h q a hq ha htag hreq
        rw [hv] at hv'
        cases hv'
        exact ht
      exact ⟨d, by rw [hr, hb']⟩
  refine ⟨form, fa, hform, hfa, hid, hiff, ?_, ?_, herr⟩
  · intro h
    rw [hiff]
    intro q a hq ha htag hreq
    have := h q a hq ha htag
    rw [hreq] at this
    exact absurd this (by simp)
  · intro hall
    obtain ⟨⟨b, d⟩, hr, hb⟩ := hok hall
    refine ⟨⟨b, d, hr⟩, ?_⟩
    rintro ⟨q, a, v, hq, ha, htag, hreq, hv, hws⟩
    cases b with
    | false => exact ⟨d, hr⟩
    | true =>
      exact absurd ((trim_eq_empty_iff v).2 hws) (hb.1 rfl q a hq ha htag hreq v hv)

theorem validateForm_true_iff_witness :
    (∃ p a, attrsAt samplePage p = some a ∧ a.id = some "signup")
    ∧ ∃ form, getElementById samplePage "signup" = some form
      ∧ ((∃ d, validateForm samplePage "signup" = .ok (true, d)) ↔
          ∀ q a, q ≠ [] → attrsAt samplePage (form ++ q) = some a →
            (a.tag = "input" ∨ a.tag = "textarea" ∨ a.tag = "select") → a.required = true →
            ∃ v, a.value = some v ∧ trim v ≠ "") := by
  have hex : ∃ p a, attrsAt samplePage p = some a ∧ a.id = some "signup" :=
    ⟨[0, 0], { tag := "form", id := some "signup", required := false, value := none,
               classList := [], disabled := false }, by decide, by decide⟩
  obtain ⟨form, _, h₁, _, _, h₂, _⟩ := validateForm_true_iff samplePage "signup" hex
  exact ⟨hex, form, h₁, h₂⟩

/-- C2, as stated, fails: in the sample page the optional input of the form
`signup` carried the marker before the call and still carries it afterwards,
although it is not required.  And in the page with the SVG `input` the call
throws there, so the required input after it, whose value `ok` is not empty,
is not visited and keeps its stale marker. -/
theorem validateForm_keeps_stale_marker :
    getElementById samplePage "signup" = some [0, 0]
    ∧ (validateForm samplePage "signup").toOption.map (fun r => attrsAt r.2 [0, 0, 1])
        = some (some { tag := "input", id := none, required := false, value := some "",
                       classList := ["border-red-500"], disabled := false })
    ∧ getElementById svgPage "signup" = some [0, 0]
    ∧ (match validateForm svgPage "signup" with
        | .ok _ => none
        | .error after => attrsAt after [0, 0, 2])
        = some { tag := "input", id := none, required := true, value := some "ok",
                 classList := ["border-red-500"], disabled := false } := by
  decide

/-- C2, amended: when the form exists and every required `input`, `textarea`
and `select` inside it has a string value, `validateForm(formId)` returns, and
afterwards every such field carries the marker class `border-red-500` exactly
when its trimmed value is empty, whatever classes it had before, and keeps its
other classes; every other element of the document, an optional field of the
form included, is as it was; and no text node changes. -/
theorem validateForm_marks_required (doc : Node) (formId : String)
    (hex : ∃ p a, attrsAt doc p = some a ∧ a.id = some formId) :
    ∃ form, getElementById doc formId = some form
      ∧ ((∀ q a, q ≠ [] → attrsAt doc (form ++ q) = some a →
            (a.tag = "input" ∨ a.tag = "textarea" ∨ a.tag = "select") → a.required = true →
            a.value ≠ none) →
        ∃ b after, validateForm doc formId = .ok (b, after)
          ∧ (∀ p, textAt after p = textAt doc p)
          ∧ (∀ p, attrsAt doc p = none → attrsAt after p = none)
          ∧ (∀ p a, attrsAt doc p = some a →
              ∃ a', attrsAt after p = some a'
                ∧ a'.tag = a.tag ∧ a'.id = a.id ∧ a'.required = a.required
                ∧ a'.value = a.value ∧ a'.disabled = a.disabled
                ∧ (∀ c, c ≠ "border-red-500" → (c ∈ a'.classList ↔ c ∈ a.classList))
                ∧ (((∃ q, q ≠ [] ∧ p = form ++ q)
                      ∧ (a.tag = "input" ∨ a.tag = "textarea" ∨ a.tag = "select")
                      ∧ a.required = true) →
                    ∀ v, a.value = some v → ("border-red-500" ∈ a'.classList ↔ trim v = ""))
                ∧ (¬ ((∃ q, q ≠ [] ∧ p = form ++ q)
                      ∧ (a.tag = "input" ∨ a.tag = "textarea" ∨ a.tag = "select")
                      ∧ a.required = true) →
                    a' = a))) := by
  obtain ⟨form, fa, hform, _, _⟩ := getElementById_of_exists doc formId hex
  refine ⟨form, hform, ?_⟩
  intro hall
  obtain ⟨⟨b, after⟩, hr, h₁, h₂, _⟩ :=
    forEach_visitInput_ok (querySelectorAll doc form) (true, doc)
      ((forall_inputs_iff doc form (fun a => a.value ≠ none)).2 hall)
  rw [← validateForm_of_found doc formId form hform] at hr
  refine ⟨b, after, hr, h₁, ?_, ?_⟩
  · intro p hp
    rw [h₂ p]
    simp only [hp, Option.map_none', ite_self]
  · intro p a ha
    have ha₀ : attrsAt (true, doc).2 p = some a := ha
    have hmem : p ∈ querySelectorAll doc form ↔
        (∃ q, q ≠ [] ∧ p = form ++ q)
          ∧ (a.tag = "input" ∨ a.tag = "textarea" ∨ a.tag = "select") ∧ a.required = true := by
      rw [mem_querySelectorAll]
      constructor
      · rintro ⟨q, a', hq, hp, ha', hr⟩
        rw [ha] at ha'
        have haa : a = a' := Option.some.inj ha'
        subst haa
        exact ⟨⟨q, hq, hp⟩, (requiredField_iff a).1 hr⟩
      · rintro ⟨⟨q, hq, hp⟩, hr⟩
        exact ⟨q, a, hq, hp, ha, (requiredField_iff a).2 hr⟩
    by_cases hin : p ∈ querySelectorAll doc form
    · refine ⟨markInvalid a, ?_, ?_⟩
      · rw [h₂ p, if_pos hin, ha₀]
        rfl
      · obtain ⟨e₁, e₂, e₃, e₄, e₅⟩ := markInvalid_fields a
        refine ⟨e₁, e₂, e₃, e₄, e₅, fun c hc => mem_markInvalid_other a c hc,
          fun _ v hv => mem_markInvalid_marker a v hv, ?_⟩
        intro hn
        exact absurd (hmem.1 hin) hn
    · refine ⟨a, ?_, rfl, rfl, rfl, rfl, rfl, fun _ _ => Iff.rfl, ?_, fun _ => rfl⟩
      · rw [h₂ p, if_neg hin]
        exact ha
      · intro hr
        exact absurd (hmem.2 hr) hin

theorem validateForm_marks_required_witness :
    (∃ p a, attrsAt samplePage p = some a ∧ a.id = some "signup")
    ∧ ∃ form, getElementById samplePage "signup" = some form
      ∧ (∀ q a, q ≠ [] → attrsAt samplePage (form ++ q) = some a →
            (a.tag = "input" ∨ a.tag = "textarea" ∨ a.tag = "select") → a.required = true →
            a.value ≠ none)
      ∧ ∃ b after, validateForm samplePage "signup" = .ok (b, after)
          ∧ (∀ p, textAt after p = textAt samplePage p) := by
  have hex : ∃ p a, attrsAt samplePage p = some a ∧ a.id = some "signup" :=
    ⟨[0, 0], { tag := "form", id := some "signup", required := false, value := none,
               classList := [], disabled := false }, by decide, by decide⟩
  obtain ⟨form, h₁, h₂⟩ := validateForm_marks_required samplePage "signup" hex
  have hform : form = [0, 0] := by
    have h : getElementById samplePage "signup" = some [0, 0] := by decide
    rw [h] at h₁
    exact (Option.some.inj h₁).symm
  subst hform
  have hall : ∀ q a, q ≠ [] → attrsAt samplePage ([0, 0] ++ q) = some a →
      (a.tag = "input" ∨ a.tag = "textarea" ∨ a.tag = "select") → a.required = true →
      a.value ≠ none := by
    refine (forall_inputs_iff samplePage [0, 0] (fun a => a.value ≠ none)).1 ?_
    have hq : querySelectorAll samplePage [0, 0] = [[0, 0, 0], [0, 0, 2, 0]] := by decide
    rw [hq]
    intro p hp a ha
    simp only [List.mem_cons, List.mem_singleton, List.not_mem_nil, or_false] at hp
    rcases hp with rfl | rfl
    · have h0 : attrsAt samplePage [0, 0, 0]
          = some { tag := "input", id := none, required := true, value := some " \t",
                   classList := [], disabled := false } := by decide
      rw [h0] at ha
      cases ha
      simp
    · have h0 : attrsAt samplePage [0, 0, 2, 0]
          = some { tag := "select", id := none, required := true, value := some "de",
                   classList := ["border-red-500", "wide"], disabled := false } := by decide
      rw [h0] at ha
      cases ha
      simp
  obtain ⟨b, after, h₃, h₄, _⟩ := h₂ hall
  exact ⟨hex, [0, 0], h₁, hall, b, after, h₃, h₄⟩

/-- C3: when no element of the document has ID `formId`, `validateForm`
returns false, without throwing, and the document after the call is the
document before it. -/
theorem validateForm_missing_form (doc : Node) (formId : String)
    (habsent : ∀ p a, attrsAt doc p = some a → a.id ≠ some formId) :
    validateForm doc formId = .ok (false, doc) := by
  simp [validateForm, getElementById_eq_none doc formId habsent]

theorem validateForm_missing_form_witness :
    (∀ p a, attrsAt samplePage p = some a → a.id ≠ some "login")
    ∧ validateForm samplePage "login" = .ok (false, samplePage) := by
  have habsent : ∀ p a, attrsAt samplePage p = some a → a.id ≠ some "login" := by
    intro p a ha hid
    obtain ⟨el, _, hel, _, _⟩ := getElementById_of_exists samplePage "login" ⟨p, a, ha, hid⟩
    have hnone : getElementById samplePage "login" = none := by decide
    rw [hnone] at hel
    exact Option.noConfusion hel
  exact ⟨habsent, validateForm_missing_form samplePage "login" habsent⟩

/-! ## Theorems on `setLoading` -/

theorem setLoading_of_found (innerHTML : InnerHTML) (doc : Node) (elementId : String)
    (el : Path) (b : Bool) (h : getElementById doc elementId = some el) :
    setLoading innerHTML doc elementId b =
      if b then
        doc.modify (fun n =>
          setInnerHTML innerHTML "<span class=\"spinner\"></span> Loading..."
            (setDisabled true n)) el
      else doc.modify (setDisabled false) el := by
  simp [setLoading, h]

theorem textContent_spinner_text (a spinner : Attrs) :
    (Node.element a [.element spinner [], .text " Loading..."]).textContent = " Loading..." := by
  simp only [Node.textContent, textContentOf]
  decide

/-- C7, as stated, fails: after `setLoading('save', true)` on the sample page
the text of the button is ` Loading...` with three full stops, which does not
contain `Loading…` written with the single ellipsis character. -/
theorem setLoading_text_has_no_ellipsis :
    getElementById samplePage "save" = some [0, 1]
    ∧ ((setLoading buttonInnerHTML samplePage "save" true).get? [0, 1]).map Node.textContent
        = some " Loading..."
    ∧ ¬ ("Loading…".data <:+: " Loading...".data) := by
  decide

/-- C7, amended: when the document has an element with ID `elementId`, after
`setLoading(elementId, true)` the element `getElementById` finds is disabled,
keeps its tag, ID, `required` and classes, and has the value and the children
that the browser's `innerHTML` setter makes of the fragment
`<span class="spinner"></span> Loading...` in that element.  Where these
children are a `span` of class `spinner` followed by the text ` Loading...`,
as in an element with ordinary content, the text of the element is
` Loading...`: it includes `Loading...` written with three full stops and
does not include `Loading…` written with the ellipsis character. -/
theorem setLoading_true_shows_loading (innerHTML : InnerHTML) (doc : Node)
    (elementId : String) (hex : ∃ p a, attrsAt doc p = some a ∧ a.id = some elementId) :
    ∃ el a cs a' cs', getElementById doc elementId = some el
      ∧ doc.get? el = some (.element a cs) ∧ a.id = some elementId
      ∧ (setLoading innerHTML doc elementId true).get? el = some (.element a' cs')
      ∧ a'.disabled = true
      ∧ a'.tag = a.tag ∧ a'.id = a.id ∧ a'.required = a.required ∧ a'.classList = a.classList
      ∧ (a'.value, cs')
          = innerHTML { a with disabled := true } cs "<span class=\"spinner\"></span> Loading..."
      ∧ ((∃ spinner, cs' = [.element spinner [], .text " Loading..."]
            ∧ spinner.tag = "span" ∧ spinner.classList = ["spinner"]) →
          (Node.element a' cs').textContent = " Loading..."
          ∧ "Loading...".data <:+: (Node.element a' cs').textContent.data
          ∧ ¬ ("Loading…".data <:+: (Node.element a' cs').textContent.data)) := by
  obtain ⟨el, a, hel, ha, hid⟩ := getElementById_of_exists doc elementId hex
  obtain ⟨cs, hcs⟩ := get?_of_attrsAt doc el a ha
  refine ⟨el, a, cs,
    { { a with disabled := true } with
      value := (innerHTML { a with disabled := true } cs
        "<span class=\"spinner\"></span> Loading...").1 },
    (innerHTML { a with disabled := true } cs "<span class=\"spinner\"></span> Loading...").2,
    hel, hcs, hid, ?_, rfl, rfl, rfl, rfl, rfl, rfl, ?_⟩
  · rw [setLoading_of_found innerHTML doc elementId el true hel, if_pos rfl, get?_modify_self,
      hcs]
    rfl
  · rintro ⟨spinner, hsp, _, _⟩
    rw [hsp, textContent_spinner_text]
    exact ⟨rfl, by decide, by decide⟩

theorem setLoading_true_shows_loading_witness :
    (∃ p a, attrsAt samplePage p = some a ∧ a.id = some "save")
    ∧ ∃ el a' cs', getElementById samplePage "save" = some el
      ∧ (setLoading buttonInnerHTML samplePage "save" true).get? el = some (.element a' cs')
      ∧ a'.disabled = true
      ∧ (∃ spinner, cs' = [.element spinner [], .text " Loading..."]
            ∧ spinner.tag = "span" ∧ spinner.classList = ["spinner"])
      ∧ (Node.element a' cs').textContent = " Loading..." := by
  have hex : ∃ p a, attrsAt samplePage p = some a ∧ a.id = some "save" :=
    ⟨[0, 1], { tag := "button", id := some "save", required := false, value := some "",
               classList := ["btn"], disabled := false }, by decide, by decide⟩
  obtain ⟨el, a, cs, a', cs', h₁, _, _, h₂, h₃, _, _, _, _, h₄, h₅⟩ :=
    setLoading_true_shows_loading buttonInnerHTML samplePage "save" hex
  have hcs : cs' = loadingHTML := by
    have := congrArg Prod.snd h₄
    simp only [buttonInnerHTML, if_true] at this
    exact this
  have hsp : ∃ spinner, cs' = [.element spinner [], .text " Loading..."]
      ∧ spinner.tag = "span" ∧ spinner.classList = ["spinner"] :=
    ⟨_, hcs, rfl, rfl⟩
  exact ⟨hex, el, a', cs', h₁, h₂, h₃, hsp, (h₅ hsp).1⟩

/-- C8: when the element exists, `setLoading(elementId, false)` sets it to
enabled and keeps its other attributes and its content, and changes no other
element and no text node; `setLoading(id, true)` followed by
`setLoading(id, false)` leaves it enabled with the value and the children
that `setLoading(id, true)` gave it, which are those the browser's `innerHTML`
setter made of the loading fragment, not with those from before the calls.
When no element has that ID, `setLoading` returns the document as it was for
either value of `isLoading`. -/
theorem setLoading_false_keeps_content (innerHTML : InnerHTML) (doc : Node)
    (elementId : String) :
    ((∃ p a, attrsAt doc p = some a ∧ a.id = some elementId) →
      ∃ el a cs, getElementById doc elementId = some el
        ∧ doc.get? el = some (.element a cs)
        ∧ (setLoading innerHTML doc elementId false).get? el
            = some (.element { a with disabled := false } cs)
        ∧ (∀ p, p ≠ el → attrsAt (setLoading innerHTML doc elementId false) p = attrsAt doc p)
        ∧ (∀ p, textAt (setLoading innerHTML doc elementId false) p = textAt doc p)
        ∧ (∃ a₁ cs₁,
            (setLoading innerHTML doc elementId true).get? el = some (.element a₁ cs₁)
            ∧ (a₁.value, cs₁) = innerHTML { a with disabled := true } cs
                "<span class=\"spinner\"></span> Loading..."
            ∧ (setLoading innerHTML (setLoading innerHTML doc elementId true) elementId
                  false).get? el
                = some (.element { a₁ with disabled := false } cs₁)
            ∧ (∀ spinner, (innerHTML { a with disabled := true } cs
                  "<span class=\"spinner\"></span> Loading...").2
                    = [.element spinner [], .text " Loading..."] →
                ((setLoading innerHTML (setLoading innerHTML doc elementId true) elementId
                    false).get? el).map Node.children
                  = some [.element spinner [], .text " Loading..."])))
    ∧ ((∀ p a, attrsAt doc p = some a → a.id ≠ some elementId) →
        ∀ b, setLoading innerHTML doc elementId b = doc) := by
  constructor
  · intro hex
    obtain ⟨el, a, hel, ha, hid⟩ := getElementById_of_exists doc elementId hex
    obtain ⟨cs, hcs⟩ := get?_of_attrsAt doc el a ha
    have hfalse : setLoading innerHTML doc elementId false
        = doc.modify (setDisabled false) el := by
      rw [setLoading_of_found innerHTML doc elementId el false hel]
      rfl
    have htrue : setLoading innerHTML doc elementId true
        = doc.modify (fun n =>
            setInnerHTML innerHTML "<span class=\"spinner\"></span> Loading..."
              (setDisabled true n)) el := by
      rw [setLoading_of_found innerHTML doc elementId el true hel]
      rfl
    have hel' : getElementById (setLoading innerHTML doc elementId true) elementId
        = some el := by
      rw [htrue]
      refine findById_modify elementId _ ?_ el doc hel
      intro a' cs' ha'
      exact ⟨_, _, rfl, ha'⟩
    have hseq : (setLoading innerHTML (setLoading innerHTML doc elementId true) elementId
        false).get? el
        = some (.element
            { ({ { a with disabled := true } with
                  value := (innerHTML { a with disabled := true } cs
                    "<span class=\"spinner\"></span> Loading...").1 } : Attrs) with
              disabled := false }
            (innerHTML { a with disabled := true } cs
              "<span class=\"spinner\"></span> Loading...").2) := by
      rw [setLoading_of_found innerHTML _ elementId el false hel', htrue]
      simp only [Bool.false_eq_true, if_false]
      rw [get?_modify_self, get?_modify_self, hcs]
      rfl
    refine ⟨el, a, cs, hel, hcs, ?_, ?_, ?_, ?_⟩
    · rw [hfalse, get?_modify_self, hcs]
      rfl
    · intro p hp
      rw [hfalse]
      show attrsAt (doc.modify (Node.mapAttrs _) el) p = _
      rw [attrsAt_modify_mapAttrs, if_neg hp]
    · intro p
      rw [hfalse]
      exact textAt_modify_mapAttrs _ el doc p
    · refine ⟨{ { a with disabled := true } with
          value := (innerHTML { a with disabled := true } cs
            "<span class=\"spinner\"></span> Loading...").1 },
        (innerHTML { a with disabled := true } cs
          "<span class=\"spinner\"></span> Loading...").2, ?_, rfl, hseq, ?_⟩
      · rw [htrue, get?_modify_self, hcs]
        rfl
      · intro spinner hsp
        rw [hseq, ← hsp]
        rfl
  · intro habsent b
    simp [setLoading, getElementById_eq_none doc elementId habsent]

theorem setLoading_false_keeps_content_witness :
    (∃ p a, attrsAt samplePage p = some a ∧ a.id = some "save")
    ∧ (∃ el a cs, getElementById samplePage "save" = some el
        ∧ samplePage.get? el = some (.element a cs)
        ∧ (setLoading buttonInnerHTML samplePage "save" false).get? el
            = some (.element { a with disabled := false } cs))
    ∧ (∀ p a, attrsAt samplePage p = some a → a.id ≠ some "login")
    ∧ (∀ b, setLoading buttonInnerHTML samplePage "login" b = samplePage) := by
  have hex : ∃ p a, attrsAt samplePage p = some a ∧ a.id = some "save" :=
    ⟨[0, 1], { tag := "button", id := some "save", required := false, value := some "",
               classList := ["btn"], disabled := false }, by decide, by decide⟩
  have habsent : ∀ p a, attrsAt samplePage p = some a → a.id ≠ some "login" := by
    intro p a ha hid
    obtain ⟨el, _, hel, _, _⟩ := getElementById_of_exists samplePage "login" ⟨p, a, ha, hid⟩
    have hnone : getElementById samplePage "login" = none := by decide
    rw [hnone] at hel
    exact Option.noConfusion hel
  obtain ⟨el, a, cs, h₁, h₂, h₃, _⟩ :=
    (setLoading_false_keeps_content buttonInnerHTML samplePage "save").1 hex
  exact ⟨hex, ⟨el, a, cs, h₁, h₂, h₃⟩, habsent,
    (setLoading_false_keeps_content buttonInnerHTML samplePage "login").2 habsent⟩

/-! ## Lemmas on the store -/

theorem addAll_notifications {User : Type} (calls : List (String × Option String × Int))
    (s : Store User) :
    (addAll s calls).notifications =
      s.notifications ++ calls.map (fun c => { id := c.2.2, message := c.1, type := typeOrInfo c.2.1 }) := by
  induction calls generalizing s with
  | nil => simp [addAll]
  | cons c cs ih =>
    have h := ih (addNotification s c.1 c.2.1 c.2.2)
    simp only [addAll, List.foldl_cons] at h ⊢
    rw [h]
    simp [addNotification]

theorem filter_ne_of_nodup (l : List Notification) (hd : (l.map Notification.id).Nodup)
    (n : Notification) (hn : n ∈ l) :
    ∃ l₁ l₂, l = l₁ ++ n :: l₂ ∧ l.filter (fun m => decide (m.id ≠ n.id)) = l₁ ++ l₂ := by
  obtain ⟨l₁, l₂, rfl⟩ := List.append_of_mem hn
  refine ⟨l₁, l₂, rfl, ?_⟩
  rw [List.map_append, List.map_cons, List.nodup_append] at hd
  obtain ⟨_, h₂, hdisj⟩ := hd
  have h₁ : ∀ m ∈ l₁, m.id ≠ n.id := by
    intro m hm heq
    exact hdisj (List.mem_map_of_mem _ hm) (by rw [heq]; exact List.mem_cons_self _ _)
  have h₃ : ∀ m ∈ l₂, m.id ≠ n.id := by
    intro m hm heq
    rw [List.nodup_cons] at h₂
    exact h₂.1 (by rw [← heq]; exact List.mem_map_of_mem _ hm)
  rw [List.filter_append, List.filter_cons]
  have e₁ : l₁.filter (fun m => decide (m.id ≠ n.id)) = l₁ :=
    List.filter_eq_self.2 (fun m hm => by simpa using h₁ m hm)
  have e₂ : l₂.filter (fun m => decide (m.id ≠ n.id)) = l₂ :=
    List.filter_eq_self.2 (fun m hm => by simpa using h₃ m hm)
  rw [e₁, e₂]
  simp

/-! ## Theorems on the store -/

/-- C4: `addNotification(message)` without a type argument, at timestamp `t`,
leaves the previous notifications followed by the one new entry
`{id: t, message, type: 'info'}`; the length grows by one, every earlier
position keeps its entry, and `user` is unchanged. -/
theorem addNotification_appends_info {User : Type} (s : Store User) (message : String)
    (t : Int) :
    (addNotification s message none t).notifications =
        s.notifications ++ [{ id := t, message := message, type := "info" }]
    ∧ (addNotification s message none t).notifications.length = s.notifications.length + 1
    ∧ (∀ i, i < s.notifications.length →
        (addNotification s message none t).notifications[i]? = s.notifications[i]?)
    ∧ (addNotification s message none t).user = s.user := by
  refine ⟨rfl, by simp [addNotification], ?_, rfl⟩
  intro i hi
  simp [addNotification, List.getElem?_append_left hi]

/-- C5, as stated, fails: after two `addNotification` calls that read the same
timestamp, removing by the id of a listed notification shortens the list by
two, not by one. -/
theorem removeNotification_not_exactly_one :
    ∃ n ∈ (addAll (Store.init Unit) [("a", none, 7), ("b", none, 7)]).notifications,
      (removeNotification (addAll (Store.init Unit) [("a", none, 7), ("b", none, 7)]) n.id).notifications.length + 1
        ≠ (addAll (Store.init Unit) [("a", none, 7), ("b", none, 7)]).notifications.length := by
  refine ⟨{ id := 7, message := "a", type := "info" }, by decide, by decide⟩

/-- C5, amended: in a store reached from the initial one by `addNotification`
calls that read pairwise distinct timestamps, `removeNotification` with the id
of a listed notification removes exactly that entry: the list is shorter by
one and the other entries stay in their order. -/
theorem removeNotification_removes_exactly_one {User : Type}
    (calls : List (String × Option String × Int))
    (hdistinct : (calls.map (fun c => c.2.2)).Nodup)
    (n : Notification) (hn : n ∈ (addAll (Store.init User) calls).notifications) :
    ∃ l₁ l₂, (addAll (Store.init User) calls).notifications = l₁ ++ n :: l₂
      ∧ (removeNotification (addAll (Store.init User) calls) n.id).notifications = l₁ ++ l₂
      ∧ (removeNotification (addAll (Store.init User) calls) n.id).notifications.length + 1
          = (addAll (Store.init User) calls).notifications.length := by
  have hids : ((addAll (Store.init User) calls).notifications.map Notification.id).Nodup := by
    rw [addAll_notifications]
    simpa [Store.init, List.map_map, Function.comp_def] using hdistinct
  obtain ⟨l₁, l₂, h₁, h₂⟩ := filter_ne_of_nodup _ hids n hn
  refine ⟨l₁, l₂, h₁, h₂, ?_⟩
  show (List.filter _ _).length + 1 = _
  rw [h₂, h₁]
  simp
  omega

theorem removeNotification_removes_exactly_one_witness :
    ∃ l₁ l₂, (addAll (Store.init Unit) [("a", none, 7), ("b", some "error", 8)]).notifications
          = l₁ ++ { id := 8, message := "b", type := "error" } :: l₂
      ∧ (removeNotification (addAll (Store.init Unit) [("a", none, 7), ("b", some "error", 8)])
          8).notifications = l₁ ++ l₂
      ∧ (removeNotification (addAll (Store.init Unit) [("a", none, 7), ("b", some "error", 8)])
          8).notifications.length + 1
          = (addAll (Store.init Unit) [("a", none, 7), ("b", some "error", 8)]).notifications.length :=
  removeNotification_removes_exactly_one [("a", none, 7), ("b", some "error", 8)]
    (by decide) { id := 8, message := "b", type := "error" } (by decide)

/-- C6: `removeNotification(id)` leaves the store as it was when no entry
carries `id`; applying it twice gives what applying it once gives; and a
pending timer whose id no entry carries any more changes neither the
notifications nor the user when it fires. -/
theorem removeNotification_idempotent {User : Type} (s : Store User) (id : Int) :
    ((∀ n ∈ s.notifications, n.id ≠ id) → removeNotification s id = s)
    ∧ removeNotification (removeNotification s id) id = removeNotification s id
    ∧ (∀ i d, (removeNotification s id).timers[i]? = some (d, id) →
        (fireTimer (removeNotification s id) i).notifications = (removeNotification s id).notifications
        ∧ (fireTimer (removeNotification s id) i).user = (removeNotification s id).user) := by
  refine ⟨?_, ?_, ?_⟩
  · intro h
    have e : s.notifications.filter (fun n => decide (n.id ≠ id)) = s.notifications :=
      List.filter_eq_self.2 (fun n hn => by simpa using h n hn)
    cases s
    simp only [removeNotification] at e ⊢
    rw [e]
  · simp [removeNotification, List.filter_filter]
  · intro i d hi
    simp only [fireTimer, hi]
    simp [removeNotification, List.filter_filter]

theorem removeNotification_idempotent_witness :
    (∀ n ∈ (removeNotification (addAll (Store.init Unit) [("x", none, 9), ("a", none, 7)]) 9).notifications,
        n.id ≠ 9)
    ∧ removeNotification (removeNotification (addAll (Store.init Unit) [("x", none, 9), ("a", none, 7)]) 9) 9
        = removeNotification (addAll (Store.init Unit) [("x", none, 9), ("a", none, 7)]) 9
    ∧ (removeNotification (removeNotification (addAll (Store.init Unit) [("x", none, 9), ("a", none, 7)]) 9) 9).timers[0]?
        = some (5000, 9)
    ∧ (fireTimer (removeNotification (removeNotification (addAll (Store.init Unit) [("x", none, 9), ("a", none, 7)]) 9) 9) 0).notifications
        = (removeNotification (removeNotification (addAll (Store.init Unit) [("x", none, 9), ("a", none, 7)]) 9) 9).notifications :=
  ⟨by decide,
    (removeNotification_idempotent
      (removeNotification (addAll (Store.init Unit) [("x", none, 9), ("a", none, 7)]) 9) 9).1 (by decide),
    by decide,
    ((removeNotification_idempotent
      (removeNotification (addAll (Store.init Unit) [("x", none, 9), ("a", none, 7)]) 9) 9).2.2 0 5000
        (by decide)).1⟩

/-- C10: ids are not unique.  Two `addNotification` calls that both read the
timestamp `t` leave two entries with id `t` at the end of the list, and one
`removeNotification(t)`, also as the first call's deferred removal, removes
both of them. -/
theorem addNotification_ids_collide {User : Type} (s : Store User) (m₁ m₂ : String)
    (ty₁ ty₂ : Option String) (t : Int) :
    (addNotification (addNotification s m₁ ty₁ t) m₂ ty₂ t).notifications =
        s.notifications ++ [{ id := t, message := m₁, type := typeOrInfo ty₁ },
                            { id := t, message := m₂, type := typeOrInfo ty₂ }]
    ∧ (removeNotification (addNotification (addNotification s m₁ ty₁ t) m₂ ty₂ t) t).notifications
        = s.notifications.filter (fun n => decide (n.id ≠ t))
    ∧ (addNotification (addNotification s m₁ ty₁ t) m₂ ty₂ t).timers[s.timers.length]? = some (5000, t)
    ∧ (fireTimer (addNotification (addNotification s m₁ ty₁ t) m₂ ty₂ t) s.timers.length).notifications
        = s.notifications.filter (fun n => decide (n.id ≠ t))
    ∧ (removeNotification (addNotification (addNotification s m₁ ty₁ t) m₂ ty₂ t) t).notifications.length + 2
        ≤ (addNotification (addNotification s m₁ ty₁ t) m₂ ty₂ t).notifications.length := by
  have ht : (addNotification (addNotification s m₁ ty₁ t) m₂ ty₂ t).timers[s.timers.length]?
      = some (5000, t) := by
    show ((s.timers ++ [(5000, t)]) ++ [(5000, t)])[s.timers.length]? = some (5000, t)
    rw [List.append_assoc, List.getElem?_append_right (le_refl _)]
    simp
  have h₁ : (addNotification (addNotification s m₁ ty₁ t) m₂ ty₂ t).notifications =
      s.notifications ++ [{ id := t, message := m₁, type := typeOrInfo ty₁ },
                          { id := t, message := m₂, type := typeOrInfo ty₂ }] := by
    simp [addNotification]
  have h₂ : (removeNotification (addNotification (addNotification s m₁ ty₁ t) m₂ ty₂ t) t).notifications
      = s.notifications.filter (fun n => decide (n.id ≠ t)) := by
    simp [addNotification, removeNotification, List.filter_append]
  refine ⟨h₁, h₂, ht, ?_, ?_⟩
  · simp only [fireTimer, ht]
    simp [addNotification, removeNotification, List.filter_append]
  · rw [h₂, h₁, List.length_append]
    have := List.length_filter_le (fun n : Notification => decide (n.id ≠ t)) s.notifications
    simp only [List.length_cons, List.length_nil]
    omega

/-! ## Theorems on toasts -/

theorem filter_ne_fresh (body : List (Nat × Element)) (r : Nat)
    (h : ∀ c ∈ body, c.1 ≠ r) : body.filter (fun c => decide (c.1 ≠ r)) = body :=
  List.filter_eq_self.2 (fun c hc => by simpa using h c hc)

theorem not_mem_filter_ne (body : List (Nat × Element)) (r : Nat) :
    r ∉ (body.filter (fun c => decide (c.1 ≠ r))).map Prod.fst := by
  intro h
  obtain ⟨c, hc, rfl⟩ := List.mem_map.1 h
  have := (List.mem_filter.1 hc).2
  simp at this

theorem find?_fresh (body : List (Nat × Element)) (r : Nat) (e : Element)
    (h : ∀ c ∈ body, c.1 ≠ r) :
    (body ++ [(r, e)]).find? (fun c => c.1 == r) = some (r, e) := by
  induction body with
  | nil => simp
  | cons c cs ih =>
    have hc : (c.1 == r) = false := by
      simpa using h c (List.mem_cons_self _ _)
    rw [List.cons_append, List.find?_cons, hc]
    exact ih (fun c' hc' => h c' (List.mem_cons_of_mem _ hc'))

set_option maxRecDepth 100000 in
/-- C9, as stated, fails: for the message `</p></div></div>` the click on the
dismiss button removes the body from the document and leaves the toast in it,
and the timer that fires afterwards takes the toast out of the body, so it
does change the body.  With the body gone from the document, a further
`showToast` throws and appends nothing. -/
theorem timer_changes_body_after_dismiss :
    sampleGrandparent (toastHTML "</p></div></div>") = .body
    ∧ (showToast mainPage "</p></div></div>" none).toOption.map
        (fun r => ((dismiss sampleGrandparent r.1 r.2).body.map Prod.fst,
                   (dismiss sampleGrandparent r.1 r.2).attached))
        = some ([0, 1], false)
    ∧ (showToast mainPage "</p></div></div>" none).toOption.map
        (fun r => ((dismiss sampleGrandparent r.1 r.2).fireTimer 0).body.map Prod.fst)
        = some [0]
    ∧ (showToast mainPage "</p></div></div>" none).toOption.map
        (fun r => (showToast (dismiss sampleGrandparent r.1 r.2) "Saved" none).toBool)
        = some false := by
  decide

/-- C9, amended: on a page whose body is in the document, `showToast(message,
type)` appends to the body exactly one element, a `div` of class
`toast toast-<type>` (`toast toast-info` when the type is omitted), keeps
every other child as it was, and queues one timer of 5000 ms for it.  Once
that timer has fired the toast is not in the body, whether or not the dismiss
button was clicked before, and the same holds in any later page with a
pending timer for the toast, where the timer leaves the body unchanged if the
toast was already gone.  On a page whose node identities are in order the
toast is a new node and the timer gives back the body from before the call;
and when the message leaves the button's grandparent the toast itself, so does
the dismissal, after which the timer leaves the body unchanged. -/
theorem showToast_appends_and_expires (grandparent : String → Grandparent) (p : Page)
    (message : String) (type : Option String) (hattached : p.attached = true) :
    ∃ p' ref, showToast p message type = .ok (p', ref)
      ∧ p'.body = p.body ++ [(ref,
          { localName := "div"
            className := match type with
              | some t => "toast toast-" ++ t
              | none => "toast toast-info"
            assignedHTML := toastHTML message })]
      ∧ p'.attached = true
      ∧ p'.timers = p.timers ++ [(5000, ref)]
      ∧ ref ∉ (p'.fireTimer p.timers.length).body.map Prod.fst
      ∧ ref ∉ ((dismiss grandparent p' ref).fireTimer p.timers.length).body.map Prod.fst
      ∧ (∀ (q : Page) (i d : Nat), q.timers[i]? = some (d, ref) →
          ref ∉ (q.fireTimer i).body.map Prod.fst
          ∧ (ref ∉ q.body.map Prod.fst → (q.fireTimer i).body = q.body))
      ∧ (p.WF →
          ref ∉ p.body.map Prod.fst
          ∧ p'.WF
          ∧ (p'.fireTimer p.timers.length).body = p.body
          ∧ (grandparent (toastHTML message) = .toast →
              (dismiss grandparent p' ref).body = p.body
              ∧ (dismiss grandparent p' ref).attached = true
              ∧ ((dismiss grandparent p' ref).fireTimer p.timers.length).body
                  = (dismiss grandparent p' ref).body)) := by
  have hcls : "toast toast-" ++ typeOrInfo type
      = (match type with
          | some t => "toast toast-" ++ t
          | none => "toast toast-info") := by
    cases type <;> rfl
  have ht : (p.timers ++ [(5000, p.nextRef)])[p.timers.length]? = some (5000, p.nextRef) := by
    rw [List.getElem?_append_right (le_refl _)]
    simp
  have hgen : ∀ (q : Page) (i d : Nat), q.timers[i]? = some (d, p.nextRef) →
      p.nextRef ∉ (q.fireTimer i).body.map Prod.fst
      ∧ (p.nextRef ∉ q.body.map Prod.fst → (q.fireTimer i).body = q.body) := by
    intro q i d hq
    simp only [Page.fireTimer, hq, Page.remove]
    refine ⟨not_mem_filter_ne q.body p.nextRef, ?_⟩
    intro hq'
    apply filter_ne_fresh
    intro c hc he
    exact hq' (List.mem_map.2 ⟨c, hc, he⟩)
  have hdt : ∀ q : Page, (dismiss grandparent q p.nextRef).timers = q.timers := by
    intro q
    unfold dismiss
    split
    · rfl
    · split <;> rfl
  refine ⟨{ p with
            body := p.body ++ [(p.nextRef,
              { localName := "div", className := "toast toast-" ++ typeOrInfo type,
                assignedHTML := toastHTML message })]
            nextRef := p.nextRef + 1
            timers := p.timers ++ [(5000, p.nextRef)] }, p.nextRef, ?_, ?_, hattached, rfl,
    (hgen _ _ 5000 ht).1, ?_, hgen, ?_⟩
  · simp [showToast, hattached]
  · simp only [hcls]
  · refine (hgen _ _ 5000 ?_).1
    rw [hdt]
    exact ht
  · rintro ⟨hlt, hnd⟩
    have hfresh : ∀ c ∈ p.body, c.1 ≠ p.nextRef := fun c hc => Nat.ne_of_lt (hlt c hc)
    have hnot : p.nextRef ∉ p.body.map Prod.fst := by
      intro h
      obtain ⟨c, hc, he⟩ := List.mem_map.1 h
      exact hfresh c hc he
    have hrem : ∀ e : Element,
        (p.body ++ [(p.nextRef, e)]).filter (fun c => decide (c.1 ≠ p.nextRef)) = p.body := by
      intro e
      rw [List.filter_append, filter_ne_fresh p.body p.nextRef hfresh]
      simp
    refine ⟨hnot, ⟨?_, ?_⟩, ?_, ?_⟩
    · intro c hc
      simp only [List.mem_append, List.mem_singleton] at hc ⊢
      rcases hc with hc | rfl
      · exact Nat.lt_succ_of_lt (hlt c hc)
      · exact Nat.lt_succ_self _
    · simp only [List.map_append, List.map_cons, List.map_nil]
      rw [List.nodup_append]
      refine ⟨hnd, List.nodup_singleton _, ?_⟩
      intro a ha hb
      rw [List.mem_singleton] at hb
      exact hnot (hb ▸ ha)
    · simp only [Page.fireTimer, ht, Page.remove]
      exact hrem _
    · intro hg
      have hdis : dismiss grandparent
          { p with
            body := p.body ++ [(p.nextRef,
              { localName := "div", className := "toast toast-" ++ typeOrInfo type,
                assignedHTML := toastHTML message })]
            nextRef := p.nextRef + 1
            timers := p.timers ++ [(5000, p.nextRef)] } p.nextRef
          = { p with
              body := p.body
              nextRef := p.nextRef + 1
              timers := p.timers ++ [(5000, p.nextRef)] } := by
        unfold dismiss
        simp only [find?_fresh p.body p.nextRef _ hfresh, hg, Page.remove, hrem]
      rw [hdis]
      refine ⟨rfl, hattached, ?_⟩
      simp only [Page.fireTimer, ht, Page.remove]
      exact filter_ne_fresh p.body p.nextRef hfresh

set_option maxRecDepth 100000 in
theorem showToast_appends_and_expires_witness :
    mainPage.attached = true
    ∧ mainPage.WF
    ∧ sampleGrandparent (toastHTML "Saved") = .toast
    ∧ ∃ p' ref, showToast mainPage "Saved" (some "success") = .ok (p', ref)
      ∧ p'.body = mainPage.body ++ [(ref,
          { localName := "div", className := "toast toast-success",
            assignedHTML := toastHTML "Saved" })]
      ∧ (p'.fireTimer mainPage.timers.length).body = mainPage.body
      ∧ (dismiss sampleGrandparent p' ref).body = mainPage.body
      ∧ ((dismiss sampleGrandparent p' ref).fireTimer mainPage.timers.length).body
          = (dismiss sampleGrandparent p' ref).body := by
  obtain ⟨p', ref, h₁, h₂, _, _, _, _, _, h₃⟩ :=
    showToast_appends_and_expires sampleGrandparent mainPage "Saved" (some "success") rfl
  obtain ⟨_, _, h₄, h₅⟩ := h₃ (by decide)
  obtain ⟨h₆, _, h₇⟩ := h₅ (by decide)
  exact ⟨rfl, by decide, by decide, p', ref, h₁, h₂, h₄, h₆, h₇⟩

end AppJs
